import Mathlib

/-!
Shallow embedding of the weasel battle engine core (teams, creatures,
relations, events) and proofs of the specification's claims about it.

The files `src/team.rs`, `src/actor.rs` and `src/fight.rs` of the repository
are embedded directly.  Parts of the engine that live in files not present
in the source tree (entity store internals, kernel, client/server pipeline,
creature and round modules) are modelled from the specification; every such
definition carries a doc comment starting with `Modelled from the spec:`.
-/

namespace Weasel

/-- Team identifiers (the tests instantiate `TeamId` with `u32`). -/
abbrev TeamId := Nat

/-- Creature identifiers (the tests instantiate `CreatureId` with `u32`). -/
abbrev CreatureId := Nat

/-- Ability identifiers (the tests instantiate `AbilityId` with `u32`). -/
abbrev AbilityId := Nat

/-- Statistic identifiers. -/
abbrev StatisticId := Nat

/-- Player identifiers. -/
abbrev PlayerId := Nat

/-- `Relation` from `team.rs`: all possible kinds of relation between teams. -/
inductive Relation
  | Ally
  | Enemy
  | Kin
deriving DecidableEq, Repr

/-- `Conclusion` from `team.rs`: outcome reached by a team. -/
inductive Conclusion
  | Victory
  | Defeat
deriving DecidableEq, Repr

/-- `EntityId` from the entity module: a tagged union over creature ids
(creatures are the only entity kind in this version of the engine). -/
inductive EntityId
  | Creature (id : CreatureId)
deriving DecidableEq, Repr

/-- `EntityId::is_actor`: creatures are actors. -/
def EntityId.isActor : EntityId → Bool
  | .Creature _ => true

/-- `Transmutation` from the entity module: structural change requested by a
rule hook. -/
inductive Transmutation
  | REMOVAL
deriving DecidableEq, Repr

/-- An ability, as in `SimpleAbility<u32, u32>` used by the tests:
an id plus an opaque payload value. -/
structure Ability where
  id : AbilityId
  power : Nat
deriving DecidableEq, Repr

/-- A statistic, as in `SimpleStatistic<u32, u32>` used by the tests. -/
structure Statistic where
  id : StatisticId
  value : Nat
deriving DecidableEq, Repr

/-- A creature: id, owning team, statistics map and abilities map
(the maps are represented as lists of entries with unique ids). -/
structure Creature where
  id : CreatureId
  team_id : TeamId
  statistics : List Statistic
  abilities : List Ability
deriving DecidableEq, Repr

/-- `Team` from `team.rs`: id, member creature ids, optional conclusion and
opaque objectives (represented by a `Nat`). -/
structure Team where
  id : TeamId
  creatures : List CreatureId
  conclusion : Option Conclusion
  objectives : Nat
deriving DecidableEq, Repr

/-- `RelationshipPair` from `team.rs`: a pair of two teams that are part of
a relationship. -/
structure RelationshipPair where
  first : TeamId
  second : TeamId
deriving DecidableEq, Repr

/-- The `PartialEq` implementation of `RelationshipPair` in `team.rs`:
two pairs are equal when they hold the same two teams in either order. -/
def pairMatch (p q : RelationshipPair) : Prop :=
  (p.first = q.first ∧ p.second = q.second) ∨
    (p.first = q.second ∧ p.second = q.first)

instance (p q : RelationshipPair) : Decidable (pairMatch p q) := by
  unfold pairMatch; infer_instance

/-- The `Hash` implementation of `RelationshipPair` in `team.rs`: the pair of
team ids fed to the hasher, larger id first when `first > second`, otherwise
`second` then `first`. Two pairs feeding the same input to any hasher hash to
the same value. -/
def pairHashInput (p : RelationshipPair) : TeamId × TeamId :=
  if p.first > p.second then (p.first, p.second) else (p.second, p.first)

/-- `RoundState` from the round module: `Ready` or `Started(actor)`. -/
inductive RoundState
  | Ready
  | Started (e : EntityId)
deriving DecidableEq, Repr

/-- The error taxonomy (`WeaselError`), restricted to the variants exercised
by the embedded events. -/
inductive WError
  | DuplicatedTeam (id : TeamId)
  | DuplicatedCreature (id : CreatureId)
  | TeamNotFound (id : TeamId)
  | CreatureNotFound (id : CreatureId)
  | EntityNotFound (id : EntityId)
  | NotAnActor (id : EntityId)
  | SelfRelation
  | KinshipRelation
  | TeamNotEmpty (id : TeamId)
  | IncompatibleVersions (localVersion remoteVersion : Nat)
  | NonContiguousEventId (got expected : Nat)
  | RoundNotReady
  | RoundNotStarted
deriving DecidableEq, Repr

/-- The event variants of the embedded core, carrying their payloads.
Opaque payloads (`Impact`, alterations, seeds) are represented by `Nat`. -/
inductive Event
  | dummy
  | createTeam (id : TeamId) (rels : Option (List (TeamId × Relation)))
      (seed : Option Nat)
  | setRelations (rels : List (TeamId × TeamId × Relation))
  | concludeObjectives (id : TeamId) (c : Conclusion)
  | resetObjectives (id : TeamId) (seed : Option Nat)
  | removeTeam (id : TeamId)
  | removeCreature (id : CreatureId)
  | regenerateAbilities (id : EntityId) (seed : Option Nat)
  | alterStatistics (id : EntityId) (alteration : Nat)
  | applyImpact (impact : Nat)
  | startRound (id : EntityId)
  | endRound
deriving DecidableEq, Repr

/-- The battle state: entity store (teams, creatures, relations), rights,
round state and history of applied events. -/
structure Battle where
  teams : List Team
  creatures : List Creature
  relations : List (RelationshipPair × Relation)
  rights : List (TeamId × List PlayerId)
  round : RoundState
  history : List Event
deriving DecidableEq, Repr

/-- `Entities::team`: lookup of a team by id. -/
def Battle.team (b : Battle) (id : TeamId) : Option Team :=
  b.teams.find? (fun t => t.id == id)

/-- `Entities::creature`: lookup of a creature by id. -/
def Battle.creature (b : Battle) (id : CreatureId) : Option Creature :=
  b.creatures.find? (fun c => c.id == id)

/-- `Entities::entity`: lookup of an entity by entity id. -/
def Battle.entity (b : Battle) (id : EntityId) : Option Creature :=
  match id with
  | .Creature cid => b.creature cid

/-- Modelled from the spec: relation lookup in the entity store uses the
order-independent pair key; the first stored entry matching the pair wins. -/
def lookupRel (store : List (RelationshipPair × Relation))
    (k : RelationshipPair) : Option Relation :=
  (store.find? (fun e => decide (pairMatch e.1 k))).map Prod.snd

/-- Modelled from the spec: `Entities::update_relations` upserts a single
`(TeamPair, Relation)` entry, replacing the stored entry with the same
order-independent key, or appending a new entry. -/
def upsertRel (store : List (RelationshipPair × Relation))
    (p : RelationshipPair) (r : Relation) :
    List (RelationshipPair × Relation) :=
  if store.any (fun e => decide (pairMatch e.1 p)) then
    store.map (fun e => if pairMatch e.1 p then (e.1, r) else e)
  else
    store ++ [(p, r)]

/-- Modelled from the spec: `Entities::update_relations` upserts a list of
`(TeamPair, Relation)` entries in order. -/
def updateRelations (store : List (RelationshipPair × Relation))
    (ps : List (RelationshipPair × Relation)) :
    List (RelationshipPair × Relation) :=
  ps.foldl (fun acc e => upsertRel acc e.1 e.2) store

/-- Modelled from the spec: the symmetric relation function between teams.
Self-relation is `Kin` by definition; otherwise the stored entry for the
order-independent pair key is consulted, defaulting to `Enemy`. -/
def Battle.relation (b : Battle) (t1 t2 : TeamId) : Relation :=
  if t1 = t2 then .Kin
  else (lookupRel b.relations ⟨t1, t2⟩).getD .Enemy

/-- The relation-list check loop of `CreateTeam::verify` in `team.rs`:
for each `(team_id, relation)` entry, reject self relation, explicit kinship
and references to teams that do not exist, in that order. -/
def verifyRelList (b : Battle) (id : TeamId) :
    List (TeamId × Relation) → Except WError Unit
  | [] => .ok ()
  | (tid, rel) :: rest =>
    if tid = id then .error .SelfRelation
    else if rel = Relation.Kin then .error .KinshipRelation
    else if (b.team tid).isNone then .error (.TeamNotFound tid)
    else verifyRelList b id rest

/-- `CreateTeam::verify` from `team.rs`: the new team must not exist, and the
optional relations list must pass `verifyRelList`. -/
def createTeamVerify (b : Battle) (id : TeamId)
    (rels : Option (List (TeamId × Relation))) : Except WError Unit :=
  if (b.team id).isSome then .error (.DuplicatedTeam id)
  else
    match rels with
    | none => .ok ()
    | some rs => verifyRelList b id rs

/-- The check loop of `SetRelations::verify` in `team.rs`: for each
`(first, second, relation)` entry, reject self relation, explicit kinship,
and references to teams that do not exist (first team checked first). -/
def verifySetList (b : Battle) :
    List (TeamId × TeamId × Relation) → Except WError Unit
  | [] => .ok ()
  | (t1, t2, rel) :: rest =>
    if t1 = t2 then .error .SelfRelation
    else if rel = Relation.Kin then .error .KinshipRelation
    else if (b.team t1).isNone then .error (.TeamNotFound t1)
    else if (b.team t2).isNone then .error (.TeamNotFound t2)
    else verifySetList b rest

/-- `SetRelations::verify` from `team.rs`. -/
def setRelationsVerify (b : Battle)
    (rels : List (TeamId × TeamId × Relation)) : Except WError Unit :=
  verifySetList b rels

/-- `ConcludeObjectives::verify` from `team.rs`: the team must exist. -/
def concludeObjectivesVerify (b : Battle) (id : TeamId) : Except WError Unit :=
  if (b.team id).isNone then .error (.TeamNotFound id) else .ok ()

/-- `ResetObjectives::verify` from `team.rs`: the team must exist. -/
def resetObjectivesVerify (b : Battle) (id : TeamId) : Except WError Unit :=
  if (b.team id).isNone then .error (.TeamNotFound id) else .ok ()

/-- `RemoveTeam::verify` from `team.rs`: the team must exist and have no
member creature. -/
def removeTeamVerify (b : Battle) (id : TeamId) : Except WError Unit :=
  match b.team id with
  | some t =>
    if t.creatures.isEmpty then .ok () else .error (.TeamNotEmpty id)
  | none => .error (.TeamNotFound id)

/-- `verify_is_actor` from `actor.rs`: the entity must claim to be an actor
and must exist in the entity store. -/
def verifyIsActor (b : Battle) (id : EntityId) : Except WError Unit :=
  if ¬ id.isActor then .error (.NotAnActor id)
  else if (b.entity id).isNone then .error (.EntityNotFound id)
  else .ok ()

/-- `ApplyImpact::verify` from `fight.rs`: an impact is never verified;
the server is trusted to generate processable impacts. -/
def applyImpactVerify (_b : Battle) (_impact : Nat) : Except WError Unit :=
  .ok ()

/-- Modelled from the spec: `RemoveCreature::verify` (creature module not in
the source tree) fails with `CreatureNotFound` when the creature is absent. -/
def removeCreatureVerify (b : Battle) (id : CreatureId) : Except WError Unit :=
  if (b.creature id).isNone then .error (.CreatureNotFound id) else .ok ()

/-- Modelled from the spec: `AlterStatistics::verify` (character module not in
the source tree) requires the referenced entity to exist. -/
def alterStatisticsVerify (b : Battle) (id : EntityId) : Except WError Unit :=
  if (b.entity id).isNone then .error (.EntityNotFound id) else .ok ()

/-- Modelled from the spec: `StartRound::verify` (round module not in the
source tree) requires an existing actor and a `Ready` round state. -/
def startRoundVerify (b : Battle) (id : EntityId) : Except WError Unit :=
  if ¬ id.isActor then .error (.NotAnActor id)
  else if (b.entity id).isNone then .error (.EntityNotFound id)
  else
    match b.round with
    | .Ready => .ok ()
    | .Started _ => .error .RoundNotReady

/-- Modelled from the spec: `EndRound::verify` (round module not in the
source tree) requires a started round. -/
def endRoundVerify (b : Battle) : Except WError Unit :=
  match b.round with
  | .Started _ => .ok ()
  | .Ready => .error .RoundNotStarted

/-- The rules binding: the rule hooks the embedded events call into.
Mirrors `TeamRules::generate_objectives`, `ActorRules::generate_abilities`,
`CharacterRules::alter` and `FightRules::apply_impact`. -/
structure Rules where
  generateObjectives : Option Nat → Nat
  generateAbilities : Option Nat → List Ability
  alterStatistics : Nat → List Statistic → List Statistic × Option Transmutation
  applyImpact : Battle → Nat → List Event

/-- Ability lookup in an actor's ability map (`Actor::ability`). -/
def abilityLookup (abs : List Ability) (i : AbilityId) : Option Ability :=
  abs.find? (fun a => a.id == i)

/-- The removal phase of `RegenerateAbilities::apply` in `actor.rs`: remove
every ability of the actor whose id is not present in the generated set.
Removal of a key from the ability map equals filtering when ids are unique. -/
def regenRemove (next : List Ability) (cur : List Ability) : List Ability :=
  cur.filter (fun a => next.any (fun e => e.id == a.id))

/-- The addition phase of `RegenerateAbilities::apply` in `actor.rs`: add
each generated ability whose id the actor does not yet know
(`Actor::add_ability` inserts into the map; modelled as appending). -/
def regenAdd (next : List Ability) (acc : List Ability) : List Ability :=
  next.foldl
    (fun acc e => if acc.any (fun a => a.id == e.id) then acc else acc ++ [e])
    acc

/-- `RegenerateAbilities::apply` from `actor.rs`, acting on the actor's
ability collection: first remove stale abilities, then add new ones. -/
def regenAbilities (next : List Ability) (cur : List Ability) : List Ability :=
  regenAdd next (regenRemove next cur)

/-- Update the creature with the given id in the store (`actor_mut` /
`team_mut` access followed by in-place mutation). -/
def Battle.updateCreature (b : Battle) (cid : CreatureId)
    (f : Creature → Creature) : Battle :=
  { b with creatures := b.creatures.map (fun c => if c.id = cid then f c else c) }

/-- Update the team with the given id in the store. -/
def Battle.updateTeam (b : Battle) (tid : TeamId)
    (f : Team → Team) : Battle :=
  { b with teams := b.teams.map (fun t => if t.id = tid then f t else t) }

/-- `CreateTeam::apply` from `team.rs`: insert the team with generated
objectives, build the explicit relations followed by `Enemy` defaults for
every other team not named, and commit them via `update_relations`. -/
def createTeamApply (rules : Rules) (b : Battle) (id : TeamId)
    (rels : Option (List (TeamId × Relation))) (seed : Option Nat) : Battle :=
  let b1 : Battle :=
    { b with teams := b.teams ++
        [⟨id, [], none, rules.generateObjectives seed⟩] }
  let explicit : List (RelationshipPair × Relation) :=
    match rels with
    | some rs => rs.map (fun e => (⟨id, e.1⟩, e.2))
    | none => []
  let defaults : List (RelationshipPair × Relation) :=
    (b1.teams.filter (fun t =>
        t.id != id && !((rels.getD []).any (fun e => e.1 == t.id)))).map
      (fun t => (⟨id, t.id⟩, Relation.Enemy))
  { b1 with relations := updateRelations b1.relations (explicit ++ defaults) }

/-- `SetRelations::apply` from `team.rs`: upsert every listed pair. -/
def setRelationsApply (b : Battle)
    (rels : List (TeamId × TeamId × Relation)) : Battle :=
  let vec : List (RelationshipPair × Relation) :=
    rels.map (fun e => (⟨e.1, e.2.1⟩, e.2.2))
  { b with relations := updateRelations b.relations vec }

/-- `ConcludeObjectives::apply` from `team.rs`: set the team's conclusion. -/
def concludeObjectivesApply (b : Battle) (id : TeamId) (c : Conclusion) :
    Battle :=
  b.updateTeam id (fun t => { t with conclusion := some c })

/-- `ResetObjectives::apply` from `team.rs`: regenerate the team's
objectives from the seed and reset its conclusion. -/
def resetObjectivesApply (rules : Rules) (b : Battle) (id : TeamId)
    (seed : Option Nat) : Battle :=
  b.updateTeam id (fun t =>
    { t with objectives := rules.generateObjectives seed, conclusion := none })

/-- `RemoveTeam::apply` from `team.rs`: remove the team from the entity
store (modelled from the spec, entity module not in the source tree) and
remove the team's entry from the rights mapping. -/
def removeTeamApply (b : Battle) (id : TeamId) : Battle :=
  { b with
      teams := b.teams.filter (fun t => t.id != id),
      rights := b.rights.filter (fun e => e.1 != id) }

/-- Modelled from the spec: `RemoveCreature::apply` (creature module not in
the source tree) removes the creature from the store and from its team's
member list (`Team::remove_creature` in `team.rs` removes the first
occurrence), and synthesizes an `EndRound` follow-up when the removed
creature is the currently acting entity. -/
def removeCreatureApply (b : Battle) (id : CreatureId) :
    Battle × List Event :=
  match b.creature id with
  | none => (b, [])
  | some c =>
    let b1 : Battle :=
      { b with
          creatures := b.creatures.filter (fun x => x.id != id),
          teams := b.teams.map (fun t =>
            if t.id = c.team_id then
              { t with creatures := t.creatures.erase id }
            else t) }
    let queue : List Event :=
      if b.round = .Started (.Creature id) then [.endRound] else []
    (b1, queue)

/-- `RegenerateAbilities::apply` from `actor.rs`, at battle level: mutate the
actor's ability collection through `regenAbilities`. -/
def regenerateAbilitiesApply (rules : Rules) (b : Battle) (id : EntityId)
    (seed : Option Nat) : Battle :=
  match id with
  | .Creature cid =>
    b.updateCreature cid (fun c =>
      { c with abilities := regenAbilities (rules.generateAbilities seed) c.abilities })

/-- Modelled from the spec: `AlterStatistics::apply` (character module not in
the source tree) runs `CharacterRules::alter` on the character's statistics;
a `Transmutation::REMOVAL` return is translated by the kernel into a
`RemoveCreature` follow-up. -/
def alterStatisticsApply (rules : Rules) (b : Battle) (id : EntityId)
    (alteration : Nat) : Battle × List Event :=
  match id with
  | .Creature cid =>
    match b.creature cid with
    | none => (b, [])
    | some c =>
      let res := rules.alterStatistics alteration c.statistics
      let b1 := b.updateCreature cid (fun x => { x with statistics := res.1 })
      match res.2 with
      | some .REMOVAL => (b1, [.removeCreature cid])
      | none => (b1, [])

/-- `ApplyImpact::apply` from `fight.rs`: delegate entirely to
`FightRules::apply_impact`, which only enqueues follow-up events. -/
def applyImpactApply (rules : Rules) (b : Battle) (impact : Nat) :
    Battle × List Event :=
  (b, rules.applyImpact b impact)

/-- Modelled from the spec: `StartRound::apply` moves the round state
machine from `Ready` to `Started(actor)`. -/
def startRoundApply (b : Battle) (id : EntityId) : Battle :=
  { b with round := .Started id }

/-- Modelled from the spec: `EndRound::apply` moves the round state machine
back to `Ready`. -/
def endRoundApply (b : Battle) : Battle :=
  { b with round := .Ready }

/-- The verify dispatcher over all embedded event variants. -/
def eventVerify (b : Battle) : Event → Except WError Unit
  | .dummy => .ok ()
  | .createTeam id rels _ => createTeamVerify b id rels
  | .setRelations rels => setRelationsVerify b rels
  | .concludeObjectives id _ => concludeObjectivesVerify b id
  | .resetObjectives id _ => resetObjectivesVerify b id
  | .removeTeam id => removeTeamVerify b id
  | .removeCreature id => removeCreatureVerify b id
  | .regenerateAbilities id _ => verifyIsActor b id
  | .alterStatistics id _ => alterStatisticsVerify b id
  | .applyImpact impact => applyImpactVerify b impact
  | .startRound id => startRoundVerify b id
  | .endRound => endRoundVerify b

/-- The apply dispatcher over all embedded event variants; returns the new
battle state together with the follow-up event queue filled during apply. -/
def eventApply (rules : Rules) (b : Battle) : Event → Battle × List Event
  | .dummy => (b, [])
  | .createTeam id rels seed => (createTeamApply rules b id rels seed, [])
  | .setRelations rels => (setRelationsApply b rels, [])
  | .concludeObjectives id c => (concludeObjectivesApply b id c, [])
  | .resetObjectives id seed => (resetObjectivesApply rules b id seed, [])
  | .removeTeam id => (removeTeamApply b id, [])
  | .removeCreature id => removeCreatureApply b id
  | .regenerateAbilities id seed => (regenerateAbilitiesApply rules b id seed, [])
  | .alterStatistics id alteration => alterStatisticsApply rules b id alteration
  | .applyImpact impact => applyImpactApply rules b impact
  | .startRound id => (startRoundApply b id, [])
  | .endRound => (endRoundApply b, [])

/-- Modelled from the spec: the kernel drains the follow-up event queue in
FIFO order, applying each drained event as a nested server-origin event and
appending it to history; its own follow-ups join the back of the queue.
Rule hooks may enqueue unboundedly, so the recursion carries explicit fuel. -/
def drainQueue (rules : Rules) : Nat → Battle → List Event → Battle
  | 0, b, _ => b
  | _ + 1, b, [] => b
  | fuel + 1, b, e :: rest =>
    match eventVerify b e with
    | .error _ => drainQueue rules fuel b rest
    | .ok () =>
      let res := eventApply rules b e
      drainQueue rules fuel
        { res.1 with history := res.1.history ++ [e] } (rest ++ res.2)

/-- Modelled from the spec: the kernel's `process` operation: verify, then
apply, append to history and drain the follow-up queue. Any verification
failure returns the taxonomy error and leaves the battle untouched. -/
def processEvent (rules : Rules) (fuel : Nat) (b : Battle) (e : Event) :
    Except WError Unit × Battle :=
  match eventVerify b e with
  | .error err => (.error err, b)
  | .ok () =>
    let res := eventApply rules b e
    (.ok (),
      drainQueue rules fuel
        { res.1 with history := res.1.history ++ [e] } res.2)

/-- `VersionedEventWrapper`: on the wire, every event is transmitted as
`(event_id, rules_version, payload)`. -/
structure VersionedEvent where
  event_id : Nat
  rules_version : Nat
  payload : Event
deriving DecidableEq, Repr

/-- A client-origin event prototype, carrying the client's rules version. -/
structure ClientPrototype where
  rules_version : Nat
  payload : Event
deriving DecidableEq, Repr

/-- A client: local rules version plus mirrored battle state. -/
structure ClientState where
  version : Nat
  battle : Battle
deriving DecidableEq, Repr

/-- A server: authoritative rules version plus battle state. -/
structure ServerState where
  version : Nat
  battle : Battle
deriving DecidableEq, Repr

/-- Modelled from the spec: `Client::receive` (client module not in the
source tree): reject a wrapper whose version differs from the local rules
version with `IncompatibleVersions(local, remote)`, reject a non-contiguous
event id, otherwise verify, apply and append locally. -/
def clientReceive (rules : Rules) (fuel : Nat) (c : ClientState)
    (w : VersionedEvent) : Except WError Unit × ClientState :=
  if w.rules_version ≠ c.version then
    (.error (.IncompatibleVersions c.version w.rules_version), c)
  else if w.event_id ≠ c.battle.history.length then
    (.error (.NonContiguousEventId w.event_id c.battle.history.length), c)
  else
    let res := processEvent rules fuel c.battle w.payload
    (res.1, { c with battle := res.2 })

/-- Modelled from the spec: the server-side processing of a client-origin
prototype rejects mismatched rules versions with
`IncompatibleVersions(client, server)` before verifying the event. -/
def serverProcessClient (rules : Rules) (fuel : Nat) (s : ServerState)
    (p : ClientPrototype) : Except WError Unit × ServerState :=
  if p.rules_version ≠ s.version then
    (.error (.IncompatibleVersions p.rules_version s.version), s)
  else
    let res := processEvent rules fuel s.battle p.payload
    (res.1, { s with battle := res.2 })

/-- Modelled from the spec: a client firing builds a prototype stamped with
its own version and ships it to the server through the upstream sink; the
local state is not updated optimistically. -/
def clientFire (rules : Rules) (fuel : Nat) (c : ClientState)
    (s : ServerState) (e : Event) : Except WError Unit × ServerState :=
  serverProcessClient rules fuel s ⟨c.version, e⟩

/-- The rules binding used by concrete witnesses: the default rule hooks
(empty generators, no-op alter, no-op impact). -/
def defaultRules : Rules where
  generateObjectives := fun _ => 0
  generateAbilities := fun _ => []
  alterStatistics := fun _ s => (s, none)
  applyImpact := fun _ _ => []

/-- The rules binding of the `remove_creature_on_alter` test: `alter`
requests `Transmutation::REMOVAL` for every alteration. -/
def removalRules : Rules where
  generateObjectives := fun _ => 0
  generateAbilities := fun _ => []
  alterStatistics := fun _ s => (s, some .REMOVAL)
  applyImpact := fun _ _ => []

/-- An empty battle, as produced by `Battle::builder`. -/
def emptyBattle : Battle where
  teams := []
  creatures := []
  relations := []
  rights := []
  round := .Ready
  history := []

lemma pairMatch_symm (p q : RelationshipPair) :
    pairMatch p q ↔ pairMatch q p := by
  unfold pairMatch
  constructor <;> rintro (⟨h1, h2⟩ | ⟨h1, h2⟩)
  · exact Or.inl ⟨h1.symm, h2.symm⟩
  · exact Or.inr ⟨h2.symm, h1.symm⟩
  · exact Or.inl ⟨h1.symm, h2.symm⟩
  · exact Or.inr ⟨h2.symm, h1.symm⟩

lemma pairMatch_swap (p : RelationshipPair) (t1 t2 : TeamId) :
    pairMatch p ⟨t1, t2⟩ ↔ pairMatch p ⟨t2, t1⟩ := by
  unfold pairMatch
  dsimp only
  tauto

lemma lookupRel_swap (store : List (RelationshipPair × Relation))
    (t1 t2 : TeamId) :
    lookupRel store ⟨t1, t2⟩ = lookupRel store ⟨t2, t1⟩ := by
  induction store with
  | nil => rfl
  | cons e rest ih =>
    by_cases h : pairMatch e.1 ⟨t1, t2⟩
    · have h2 : pairMatch e.1 ⟨t2, t1⟩ := (pairMatch_swap e.1 t1 t2).mp h
      simp [lookupRel, List.find?_cons_of_pos, h, h2]
    · have h2 : ¬ pairMatch e.1 ⟨t2, t1⟩ := fun hc =>
        h ((pairMatch_swap e.1 t1 t2).mpr hc)
      simp only [lookupRel] at ih ⊢
      rw [List.find?_cons_of_neg _ (by simpa using h),
        List.find?_cons_of_neg _ (by simpa using h2)]
      exact ih

/-- C5: the canonical relationship key is order-independent: for all team
ids `t1` and `t2`, `RelationshipPair(t1, t2)` compares equal to
`RelationshipPair(t2, t1)` (and pair equality is symmetric in general), the
two pairs feed identical input to the hasher and thus hash to the same
value, and a single stored entry answers relation lookups in both
directions. -/
theorem relationship_pair_order_independent :
    (∀ t1 t2 : TeamId, pairMatch ⟨t1, t2⟩ ⟨t2, t1⟩) ∧
    (∀ p q : RelationshipPair, pairMatch p q ↔ pairMatch q p) ∧
    (∀ t1 t2 : TeamId, pairHashInput ⟨t1, t2⟩ = pairHashInput ⟨t2, t1⟩) ∧
    (∀ (store : List (RelationshipPair × Relation)) (t1 t2 : TeamId),
      lookupRel store ⟨t1, t2⟩ = lookupRel store ⟨t2, t1⟩) := by
  refine ⟨?_, pairMatch_symm, ?_, lookupRel_swap⟩
  · intro t1 t2
    unfold pairMatch
    dsimp only
    tauto
  · intro t1 t2
    unfold pairHashInput
    dsimp only
    rcases Nat.lt_trichotomy t1 t2 with h | h | h
    · rw [if_neg (Nat.not_lt.mpr h.le), if_pos h]
    · subst h
      simp
    · rw [if_pos h, if_neg (Nat.not_lt.mpr h.le)]

/-- C9: `ApplyImpact` verification succeeds for every battle state and every
impact payload; impacts are never rejected at the verify phase. -/
theorem apply_impact_verify_always_ok :
    ∀ (b : Battle) (impact : Nat),
      eventVerify b (.applyImpact impact) = .ok () := by
  intro b impact
  rfl

/-- C3: if an event's verification fails, `process` returns the taxonomy
error and the battle state is exactly as it was before the call; no partial
mutation is observable on the error path. -/
theorem process_no_mutation_on_error :
    ∀ (rules : Rules) (fuel : Nat) (b : Battle) (e : Event) (err : WError),
      eventVerify b e = .error err →
      processEvent rules fuel b e = (.error err, b) := by
  intro rules fuel b e err h
  unfold processEvent
  rw [h]

/-- Witness for C3: removing a nonexistent team fails verification with
`TeamNotFound` and leaves the empty battle untouched. -/
theorem process_no_mutation_on_error_witness :
    eventVerify emptyBattle (.removeTeam 1) = .error (.TeamNotFound 1) ∧
    processEvent defaultRules 0 emptyBattle (.removeTeam 1) =
      (.error (.TeamNotFound 1), emptyBattle) :=
  ⟨rfl, process_no_mutation_on_error defaultRules 0 emptyBattle
    (.removeTeam 1) (.TeamNotFound 1) rfl⟩

lemma drainQueue_nil (rules : Rules) (fuel : Nat) (b : Battle) :
    drainQueue rules fuel b [] = b := by
  cases fuel <;> rfl

lemma processEvent_ok_nofollow (rules : Rules) (fuel : Nat) (b : Battle)
    (e : Event) (hv : eventVerify b e = .ok ())
    (hq : (eventApply rules b e).2 = []) :
    processEvent rules fuel b e =
      (.ok (), { (eventApply rules b e).1 with
        history := (eventApply rules b e).1.history ++ [e] }) := by
  unfold processEvent
  rw [hv]
  dsimp only
  rw [hq, drainQueue_nil]

lemma find?_team_update (l : List Team) (tid : TeamId) (f : Team → Team)
    (hf : ∀ t, (f t).id = t.id) :
    ∀ t, l.find? (fun x => x.id == tid) = some t →
      (l.map (fun x => if x.id = tid then f x else x)).find?
        (fun x => x.id == tid) = some (f t) := by
  induction l with
  | nil => intro t h; simp at h
  | cons a rest ih =>
    intro t h
    by_cases ha : a.id = tid
    · rw [List.find?_cons_of_pos _ (by simp [ha])] at h
      cases h
      simp only [List.map_cons, if_pos ha]
      rw [List.find?_cons_of_pos _ (by simp [hf, ha])]
    · rw [List.find?_cons_of_neg _ (by simp [ha])] at h
      simp only [List.map_cons, if_neg ha]
      rw [List.find?_cons_of_neg _ (by simp [ha])]
      exact ih t h

lemma find?_team_update_ne (l : List Team) (tid tid2 : TeamId)
    (f : Team → Team) (hf : ∀ t, (f t).id = t.id) (hne : tid2 ≠ tid) :
    (l.map (fun x => if x.id = tid then f x else x)).find?
        (fun x => x.id == tid2) =
      l.find? (fun x => x.id == tid2) := by
  induction l with
  | nil => rfl
  | cons a rest ih =>
    by_cases ha : a.id = tid
    · simp only [List.map_cons, if_pos ha]
      rw [List.find?_cons_of_neg _
          (by simp [hf, ha]; exact fun hc => hne hc.symm),
        List.find?_cons_of_neg _
          (by simp [ha]; exact fun hc => hne hc.symm)]
      exact ih
    · simp only [List.map_cons, if_neg ha]
      by_cases ha2 : a.id = tid2
      · rw [List.find?_cons_of_pos _ (by simp [ha2]),
          List.find?_cons_of_pos _ (by simp [ha2])]
      · rw [List.find?_cons_of_neg _ (by simp [ha2]),
          List.find?_cons_of_neg _ (by simp [ha2])]
        exact ih

/-- The rights entry of a team in the rights mapping. -/
def Battle.rightsEntry (b : Battle) (tid : TeamId) : Option (List PlayerId) :=
  (b.rights.find? (fun e => e.1 == tid)).map Prod.snd

/-- C10: for every existing team and every seed, `ResetObjectives` passes
verification, sets the team's objectives to `generate_objectives(seed)` and
resets its conclusion to `None` (even if a `Victory` or `Defeat` had been
reached), leaving every other field of the team, every other team, and the
rest of the battle state unchanged. -/
theorem reset_objectives_spec (rules : Rules) (fuel : Nat) (b : Battle)
    (tid : TeamId) (seed : Option Nat) (t : Team) (ht : b.team tid = some t) :
    resetObjectivesVerify b tid = .ok () ∧
    ((processEvent rules fuel b (.resetObjectives tid seed)).2.team tid =
      some { t with objectives := rules.generateObjectives seed,
                    conclusion := none }) ∧
    (∀ tid2, tid2 ≠ tid →
      (processEvent rules fuel b (.resetObjectives tid seed)).2.team tid2 =
        b.team tid2) ∧
    (processEvent rules fuel b (.resetObjectives tid seed)).2.creatures =
      b.creatures ∧
    (processEvent rules fuel b (.resetObjectives tid seed)).2.relations =
      b.relations ∧
    (processEvent rules fuel b (.resetObjectives tid seed)).2.rights =
      b.rights ∧
    (processEvent rules fuel b (.resetObjectives tid seed)).2.round =
      b.round := by
  have hv : resetObjectivesVerify b tid = .ok () := by
    unfold resetObjectivesVerify
    rw [ht]
    rfl
  have hv2 : eventVerify b (.resetObjectives tid seed) = .ok () := hv
  have hp := processEvent_ok_nofollow rules fuel b
    (.resetObjectives tid seed) hv2 rfl
  rw [hp]
  dsimp only [eventApply, resetObjectivesApply, Battle.updateTeam, Battle.team,
    Battle.creature]
  refine ⟨hv, ?_, ?_, rfl, rfl, rfl, rfl⟩
  · exact find?_team_update b.teams tid
      (fun t => { t with objectives := rules.generateObjectives seed,
                         conclusion := none })
      (fun _ => rfl) t ht
  · intro tid2 hne
    exact find?_team_update_ne b.teams tid tid2
      (fun t => { t with objectives := rules.generateObjectives seed,
                         conclusion := none })
      (fun _ => rfl) hne

/-- A one-team battle used by concrete witnesses; the team has already
reached a `Victory` conclusion. -/
def oneTeamBattle : Battle where
  teams := [⟨1, [], some .Victory, 7⟩]
  creatures := []
  relations := []
  rights := [(1, [4])]
  round := .Ready
  history := []

/-- Witness for C10: resetting the objectives of the concluded team of
`oneTeamBattle` with seed 3 clears the conclusion and regenerates the
objectives. -/
theorem reset_objectives_spec_witness :
    oneTeamBattle.team 1 = some ⟨1, [], some .Victory, 7⟩ ∧
    (processEvent defaultRules 0 oneTeamBattle
        (.resetObjectives 1 (some 3))).2.team 1 =
      some ⟨1, [], none, 0⟩ :=
  ⟨rfl, (reset_objectives_spec defaultRules 0 oneTeamBattle 1 (some 3)
    ⟨1, [], some .Victory, 7⟩ rfl).2.1⟩

/-- C6: `RemoveTeam` verification yields `TeamNotFound` for an absent team
and `TeamNotEmpty` for a team that still has members; on success, apply
removes the team from the entity store and drops the team's entry from the
rights mapping. -/
theorem remove_team_spec (rules : Rules) (fuel : Nat) (b : Battle)
    (tid : TeamId) :
    (b.team tid = none →
      removeTeamVerify b tid = .error (.TeamNotFound tid)) ∧
    (∀ t, b.team tid = some t → t.creatures ≠ [] →
      removeTeamVerify b tid = .error (.TeamNotEmpty tid)) ∧
    (∀ t, b.team tid = some t → t.creatures = [] →
      removeTeamVerify b tid = .ok () ∧
      (processEvent rules fuel b (.removeTeam tid)).2.team tid = none ∧
      (processEvent rules fuel b (.removeTeam tid)).2.rightsEntry tid =
        none) := by
  refine ⟨?_, ?_, ?_⟩
  · intro h
    unfold removeTeamVerify
    rw [h]
  · intro t ht hne
    unfold removeTeamVerify
    rw [ht]
    simp [List.isEmpty_iff, hne]
  · intro t ht hempty
    have hv : removeTeamVerify b tid = .ok () := by
      unfold removeTeamVerify
      rw [ht]
      simp [List.isEmpty_iff, hempty]
    have hv2 : eventVerify b (.removeTeam tid) = .ok () := hv
    have hp := processEvent_ok_nofollow rules fuel b (.removeTeam tid) hv2 rfl
    rw [hp]
    dsimp only [eventApply, removeTeamApply, Battle.team, Battle.rightsEntry]
    refine ⟨hv, ?_, ?_⟩
    · rw [List.find?_eq_none]
      intro x hx
      simp only [List.mem_filter] at hx
      simpa using hx.2
    · rw [show ∀ o : Option (TeamId × List PlayerId),
          o.map Prod.snd = none ↔ o = none by intro o; cases o <;> simp]
      rw [List.find?_eq_none]
      intro x hx
      simp only [List.mem_filter] at hx
      simpa using hx.2

/-- Witness for C6: removing the empty team of `oneTeamBattle` succeeds,
deletes the team and clears its rights entry. -/
theorem remove_team_spec_witness :
    oneTeamBattle.team 1 = some ⟨1, [], some .Victory, 7⟩ ∧
    removeTeamVerify oneTeamBattle 1 = .ok () ∧
    (processEvent defaultRules 0 oneTeamBattle (.removeTeam 1)).2.team 1 =
      none ∧
    (processEvent defaultRules 0 oneTeamBattle
        (.removeTeam 1)).2.rightsEntry 1 = none :=
  ⟨rfl, (remove_team_spec defaultRules 0 oneTeamBattle 1).2.2
    ⟨1, [], some .Victory, 7⟩ rfl rfl⟩

/-- C8: a versioned wrapper whose `rules_version` differs from the client's
local version is rejected by `Client::receive` with
`IncompatibleVersions(local, remote)` without applying the event (the client
state, hence its history, is unchanged); a client firing a prototype under
mismatched versions likewise fails with `IncompatibleVersions(local, remote)`
and does not mutate the server. -/
theorem version_mismatch_rejected (rules : Rules) (fuel : Nat)
    (c : ClientState) (s : ServerState) (w : VersionedEvent) (e : Event) :
    (w.rules_version ≠ c.version →
      clientReceive rules fuel c w =
        (.error (.IncompatibleVersions c.version w.rules_version), c)) ∧
    (c.version ≠ s.version →
      clientFire rules fuel c s e =
        (.error (.IncompatibleVersions c.version s.version), s)) := by
  constructor
  · intro h
    unfold clientReceive
    rw [if_pos h]
  · intro h
    unfold clientFire serverProcessClient
    dsimp only
    rw [if_pos h]

/-- Witness for C8: a version-4 wrapper is rejected by a version-2 client
with `IncompatibleVersions(2, 4)`, and the same client firing `DummyEvent`
at a version-4 server fails with `IncompatibleVersions(2, 4)`. -/
theorem version_mismatch_rejected_witness :
    (4 : Nat) ≠ (2 : Nat) ∧
    clientReceive defaultRules 0 ⟨2, emptyBattle⟩ ⟨0, 4, .dummy⟩ =
      (.error (.IncompatibleVersions 2 4), ⟨2, emptyBattle⟩) ∧
    clientFire defaultRules 0 ⟨2, emptyBattle⟩ ⟨4, emptyBattle⟩ .dummy =
      (.error (.IncompatibleVersions 2 4), ⟨4, emptyBattle⟩) :=
  ⟨by decide,
    (version_mismatch_rejected defaultRules 0 ⟨2, emptyBattle⟩
      ⟨4, emptyBattle⟩ ⟨0, 4, .dummy⟩ .dummy).1 (by decide),
    (version_mismatch_rejected defaultRules 0 ⟨2, emptyBattle⟩
      ⟨4, emptyBattle⟩ ⟨0, 4, .dummy⟩ .dummy).2 (by decide)⟩

lemma verifyRelList_ok_iff (b : Battle) (id : TeamId)
    (rs : List (TeamId × Relation)) :
    verifyRelList b id rs = .ok () ↔
      ∀ p ∈ rs, p.1 ≠ id ∧ p.2 ≠ Relation.Kin ∧
        (b.team p.1).isSome = true := by
  induction rs with
  | nil => simp [verifyRelList]
  | cons hd tl ih =>
    obtain ⟨tid, rel⟩ := hd
    simp only [verifyRelList]
    by_cases h1 : tid = id
    · simp [h1]
    · by_cases h2 : rel = Relation.Kin
      · simp [h1, h2]
      · cases hbt : b.team tid with
        | none => simp [h1, h2, hbt]
        | some v => simp [h1, h2, hbt, ih]

lemma verifyRelList_append (b : Battle) (id : TeamId)
    (l1 l2 : List (TeamId × Relation))
    (h : ∀ p ∈ l1, p.1 ≠ id ∧ p.2 ≠ Relation.Kin ∧
      (b.team p.1).isSome = true) :
    verifyRelList b id (l1 ++ l2) = verifyRelList b id l2 := by
  induction l1 with
  | nil => rfl
  | cons hd tl ih =>
    obtain ⟨tid, rel⟩ := hd
    obtain ⟨h1, h2, h3⟩ := h (tid, rel) (List.mem_cons_self _ _)
    cases hbt : b.team tid with
    | none => rw [hbt] at h3; simp at h3
    | some v =>
      simp only [List.cons_append, verifyRelList]
      rw [if_neg h1, if_neg h2, hbt]
      simp only [Option.isNone_some, Bool.false_eq_true, if_false]
      exact ih (fun p hp => h p (List.mem_cons_of_mem _ hp))

lemma verifySetList_ok_iff (b : Battle)
    (ss : List (TeamId × TeamId × Relation)) :
    verifySetList b ss = .ok () ↔
      ∀ q ∈ ss, q.1 ≠ q.2.1 ∧ q.2.2 ≠ Relation.Kin ∧
        (b.team q.1).isSome = true ∧ (b.team q.2.1).isSome = true := by
  induction ss with
  | nil => simp [verifySetList]
  | cons hd tl ih =>
    obtain ⟨u, v, rel⟩ := hd
    simp only [verifySetList]
    by_cases h1 : u = v
    · simp [h1]
    · by_cases h2 : rel = Relation.Kin
      · simp [h1, h2]
      · cases hu : b.team u with
        | none => simp [h1, h2, hu]
        | some x =>
          cases hv : b.team v with
          | none => simp [h1, h2, hu, hv]
          | some y => simp [h1, h2, hu, hv, ih]

lemma verifySetList_append (b : Battle)
    (l1 l2 : List (TeamId × TeamId × Relation))
    (h : ∀ q ∈ l1, q.1 ≠ q.2.1 ∧ q.2.2 ≠ Relation.Kin ∧
      (b.team q.1).isSome = true ∧ (b.team q.2.1).isSome = true) :
    verifySetList b (l1 ++ l2) = verifySetList b l2 := by
  induction l1 with
  | nil => rfl
  | cons hd tl ih =>
    obtain ⟨u, v, rel⟩ := hd
    obtain ⟨h1, h2, h3, h4⟩ := h (u, v, rel) (List.mem_cons_self _ _)
    cases hu : b.team u with
    | none => rw [hu] at h3; simp at h3
    | some x =>
      cases hv : b.team v with
      | none => rw [hv] at h4; simp at h4
      | some y =>
        simp only [List.cons_append, verifySetList]
        rw [if_neg h1, if_neg h2, hu, hv]
        simp only [Option.isNone_some, Bool.false_eq_true, if_false]
        exact ih (fun q hq => h q (List.mem_cons_of_mem _ hq))

/-- C4: `CreateTeam` verification rejects an existing id with
`DuplicatedTeam` and checks each relations entry against self relation,
explicit kinship and existence (first offending condition of the first
offending entry wins); `SetRelations` verification enforces the same
conditions on each `(t1, t2, relation)` entry; both verifications succeed
exactly when no condition is violated. -/
theorem team_relations_verify_taxonomy (b : Battle) (nid : TeamId)
    (rs : List (TeamId × Relation)) (ss : List (TeamId × TeamId × Relation)) :
    (createTeamVerify b nid (some rs) = .ok () ↔
      (b.team nid).isSome = false ∧
      ∀ p ∈ rs, p.1 ≠ nid ∧ p.2 ≠ Relation.Kin ∧
        (b.team p.1).isSome = true) ∧
    ((b.team nid).isSome = true →
      createTeamVerify b nid (some rs) = .error (.DuplicatedTeam nid)) ∧
    ((b.team nid).isSome = false →
      ∀ l1 o r l2, rs = l1 ++ (o, r) :: l2 →
        (∀ p ∈ l1, p.1 ≠ nid ∧ p.2 ≠ Relation.Kin ∧
          (b.team p.1).isSome = true) →
        (o = nid →
          createTeamVerify b nid (some rs) = .error .SelfRelation) ∧
        (o ≠ nid → r = Relation.Kin →
          createTeamVerify b nid (some rs) = .error .KinshipRelation) ∧
        (o ≠ nid → r ≠ Relation.Kin → b.team o = none →
          createTeamVerify b nid (some rs) = .error (.TeamNotFound o))) ∧
    (setRelationsVerify b ss = .ok () ↔
      ∀ q ∈ ss, q.1 ≠ q.2.1 ∧ q.2.2 ≠ Relation.Kin ∧
        (b.team q.1).isSome = true ∧ (b.team q.2.1).isSome = true) ∧
    (∀ l1 u v r l2, ss = l1 ++ (u, v, r) :: l2 →
      (∀ q ∈ l1, q.1 ≠ q.2.1 ∧ q.2.2 ≠ Relation.Kin ∧
        (b.team q.1).isSome = true ∧ (b.team q.2.1).isSome = true) →
      (u = v → setRelationsVerify b ss = .error .SelfRelation) ∧
      (u ≠ v → r = Relation.Kin →
        setRelationsVerify b ss = .error .KinshipRelation) ∧
      (u ≠ v → r ≠ Relation.Kin → b.team u = none →
        setRelationsVerify b ss = .error (.TeamNotFound u)) ∧
      (u ≠ v → r ≠ Relation.Kin → (b.team u).isSome = true →
        b.team v = none →
        setRelationsVerify b ss = .error (.TeamNotFound v))) := by
  refine ⟨?_, ?_, ?_, verifySetList_ok_iff b ss, ?_⟩
  · unfold createTeamVerify
    cases hb : (b.team nid).isSome with
    | true => simp [verifyRelList_ok_iff]
    | false => simp [verifyRelList_ok_iff]
  · intro h
    unfold createTeamVerify
    rw [if_pos h]
  · intro hdup l1 o r l2 hrs hclean
    unfold createTeamVerify
    rw [if_neg (by rw [hdup]; exact fun hc => nomatch hc)]
    subst hrs
    dsimp only
    rw [verifyRelList_append b nid l1 _ hclean]
    refine ⟨?_, ?_, ?_⟩
    · intro ho
      simp only [verifyRelList]
      rw [if_pos ho]
    · intro ho hr
      simp only [verifyRelList]
      rw [if_neg ho, if_pos hr]
    · intro ho hr hno
      simp only [verifyRelList]
      rw [if_neg ho, if_neg hr, hno]
      rfl
  · intro l1 u v r l2 hss hclean
    unfold setRelationsVerify
    subst hss
    rw [verifySetList_append b l1 _ hclean]
    refine ⟨?_, ?_, ?_, ?_⟩
    · intro huv
      simp only [verifySetList]
      rw [if_pos huv]
    · intro huv hr
      simp only [verifySetList]
      rw [if_neg huv, if_pos hr]
    · intro huv hr hnu
      simp only [verifySetList]
      rw [if_neg huv, if_neg hr, hnu]
      rfl
    · intro huv hr hu hnv
      simp only [verifySetList]
      rw [if_neg huv, if_neg hr]
      cases hu2 : b.team u with
      | none => rw [hu2] at hu; simp at hu
      | some x =>
        simp only [Option.isNone_some, Bool.false_eq_true, if_false]
        rw [hnv]
        rfl

/-- Witness for C4: on `oneTeamBattle` (which holds only team 1), creating
team 2 allied with team 1 verifies Ok; creating it related to the missing
team 3 fails with `TeamNotFound 3`; setting a kin relation between teams
fails with `KinshipRelation`. -/
theorem team_relations_verify_taxonomy_witness :
    (createTeamVerify oneTeamBattle 2 (some [(1, .Ally)]) = .ok ()) ∧
    (createTeamVerify oneTeamBattle 2 (some [(1, .Ally), (3, .Enemy)]) =
      .error (.TeamNotFound 3)) ∧
    (setRelationsVerify oneTeamBattle [(1, 2, .Kin)] =
      .error .KinshipRelation) := by
  refine ⟨?_, ?_, ?_⟩
  · exact (team_relations_verify_taxonomy oneTeamBattle 2 [(1, .Ally)]
      []).1.mpr (by decide)
  · exact (((team_relations_verify_taxonomy oneTeamBattle 2
      [(1, .Ally), (3, .Enemy)] []).2.2.1 (by decide) [(1, .Ally)] 3 .Enemy
      [] rfl (by decide)).2.2 (by decide) (by decide) (by decide))
  · exact (((team_relations_verify_taxonomy oneTeamBattle 2 []
      [(1, 2, .Kin)]).2.2.2.2 [] 1 2 .Kin [] rfl (by decide)).2.1
      (by decide) rfl)

/-- An id is represented in an ability collection. -/
def hasAbilityId (l : List Ability) (i : AbilityId) : Prop :=
  ∃ a ∈ l, a.id = i

lemma regenAdd_cons_mem (e : Ability) (rest acc : List Ability)
    (h : acc.any (fun a => a.id == e.id) = true) :
    regenAdd (e :: rest) acc = regenAdd rest acc := by
  simp only [regenAdd, List.foldl_cons, h, if_true]

lemma regenAdd_cons_new (e : Ability) (rest acc : List Ability)
    (h : ¬ acc.any (fun a => a.id == e.id) = true) :
    regenAdd (e :: rest) acc = regenAdd rest (acc ++ [e]) := by
  simp only [regenAdd, List.foldl_cons]
  rw [if_neg h]

lemma regenAdd_split (next : List Ability) :
    ∀ acc, ∃ extra, regenAdd next acc = acc ++ extra ∧
      ∀ e ∈ extra, e ∈ next := by
  induction next with
  | nil => intro acc; exact ⟨[], by simp [regenAdd], by simp⟩
  | cons e rest ih =>
    intro acc
    by_cases h : acc.any (fun a => a.id == e.id) = true
    · obtain ⟨ex, hx, hm⟩ := ih acc
      exact ⟨ex, by rw [regenAdd_cons_mem e rest acc h]; exact hx,
        fun x hxm => List.mem_cons_of_mem _ (hm x hxm)⟩
    · obtain ⟨ex, hx, hm⟩ := ih (acc ++ [e])
      refine ⟨e :: ex, ?_, ?_⟩
      · rw [regenAdd_cons_new e rest acc h, hx]
        simp
      · intro x hxm
        rcases List.mem_cons.mp hxm with rfl | hxm
        · exact List.mem_cons_self _ _
        · exact List.mem_cons_of_mem _ (hm x hxm)

lemma abilityLookup_append_left (l1 l2 : List Ability) (i : AbilityId)
    (a : Ability) (h : abilityLookup l1 i = some a) :
    abilityLookup (l1 ++ l2) i = some a := by
  unfold abilityLookup at *
  rw [List.find?_append, h]
  rfl

lemma abilityLookup_append_right (l1 l2 : List Ability) (i : AbilityId)
    (h : abilityLookup l1 i = none) :
    abilityLookup (l1 ++ l2) i = abilityLookup l2 i := by
  unfold abilityLookup at *
  rw [List.find?_append, h]
  rfl

lemma regenAdd_lookup_preserved (next acc : List Ability) (i : AbilityId)
    (a : Ability) (h : abilityLookup acc i = some a) :
    abilityLookup (regenAdd next acc) i = some a := by
  obtain ⟨ex, hx, _⟩ := regenAdd_split next acc
  rw [hx]
  exact abilityLookup_append_left acc ex i a h

lemma regenAdd_hasId (next : List Ability) :
    ∀ acc i, hasAbilityId (regenAdd next acc) i ↔
      hasAbilityId acc i ∨ hasAbilityId next i := by
  induction next with
  | nil => intro acc i; simp [regenAdd, hasAbilityId]
  | cons e rest ih =>
    intro acc i
    by_cases h : acc.any (fun a => a.id == e.id) = true
    · rw [regenAdd_cons_mem e rest acc h, ih]
      constructor
      · rintro (hl | hr)
        · exact Or.inl hl
        · obtain ⟨x, hx, hxi⟩ := hr
          exact Or.inr ⟨x, List.mem_cons_of_mem _ hx, hxi⟩
      · rintro (hl | hr)
        · exact Or.inl hl
        · obtain ⟨x, hx, hxi⟩ := hr
          rcases List.mem_cons.mp hx with rfl | hx2
          · obtain ⟨y, hy, hyi⟩ := List.any_eq_true.mp h
            simp only [beq_iff_eq] at hyi
            exact Or.inl ⟨y, hy, by rw [hyi, hxi]⟩
          · exact Or.inr ⟨x, hx2, hxi⟩
    · rw [regenAdd_cons_new e rest acc h, ih]
      unfold hasAbilityId
      constructor
      · rintro (⟨x, hx, hxi⟩ | ⟨x, hx, hxi⟩)
        · rcases List.mem_append.mp hx with hx2 | hx2
          · exact Or.inl ⟨x, hx2, hxi⟩
          · have hxe := List.mem_singleton.mp hx2
            subst hxe
            exact Or.inr ⟨x, List.mem_cons_self _ _, hxi⟩
        · exact Or.inr ⟨x, List.mem_cons_of_mem _ hx, hxi⟩
      · rintro (⟨x, hx, hxi⟩ | ⟨x, hx, hxi⟩)
        · exact Or.inl ⟨x, List.mem_append.mpr (Or.inl hx), hxi⟩
        · rcases List.mem_cons.mp hx with rfl | hx2
          · exact Or.inl ⟨x,
              List.mem_append.mpr (Or.inr (List.mem_singleton.mpr rfl)), hxi⟩
          · exact Or.inr ⟨x, hx2, hxi⟩

lemma regenAdd_lookup_new (next : List Ability) :
    ∀ acc i e, (next.map Ability.id).Nodup →
      (∀ x ∈ acc, x.id ≠ i) → e ∈ next → e.id = i →
      abilityLookup (regenAdd next acc) i = some e := by
  induction next with
  | nil => intro acc i e _ _ he _; simp at he
  | cons e' rest ih =>
    intro acc i e hnd hacc he hei
    have hnd2 : (rest.map Ability.id).Nodup :=
      (List.nodup_cons.mp (by simpa using hnd)).2
    by_cases h : acc.any (fun a => a.id == e'.id) = true
    · rw [regenAdd_cons_mem e' rest acc h]
      rcases List.mem_cons.mp he with rfl | he2
      · exfalso
        obtain ⟨y, hy, hyi⟩ := List.any_eq_true.mp h
        simp only [beq_iff_eq] at hyi
        exact hacc y hy (by rw [hyi, hei])
      · exact ih acc i e hnd2 hacc he2 hei
    · rw [regenAdd_cons_new e' rest acc h]
      by_cases hei' : e'.id = i
      · have heq : e = e' := by
          rcases List.mem_cons.mp he with rfl | he2
          · rfl
          · exfalso
            have : e'.id ∈ rest.map Ability.id :=
              List.mem_map.mpr ⟨e, he2, by rw [hei, hei']⟩
            exact (List.nodup_cons.mp (by simpa using hnd)).1 this
        subst heq
        apply regenAdd_lookup_preserved
        have hhead : abilityLookup [e] i = some e := by
          unfold abilityLookup
          rw [List.find?_cons_of_pos _ (by simp [hei])]
        have hnone : abilityLookup acc i = none := by
          unfold abilityLookup
          rw [List.find?_eq_none]
          intro x hx
          simpa using hacc x hx
        rw [abilityLookup_append_right acc [e] i hnone]
        exact hhead
      · have he2 : e ∈ rest := by
          rcases List.mem_cons.mp he with rfl | he2
          · exact absurd hei hei'
          · exact he2
        apply ih (acc ++ [e']) i e hnd2 _ he2 hei
        intro x hx
        rcases List.mem_append.mp hx with hx2 | hx2
        · exact hacc x hx2
        · rw [List.mem_singleton.mp hx2]
          exact hei'

lemma regenRemove_lookup (next : List Ability) (a : Ability)
    (hin : next.any (fun e => e.id == a.id) = true) :
    ∀ cur, (cur.map Ability.id).Nodup → a ∈ cur →
      abilityLookup (regenRemove next cur) a.id = some a := by
  intro cur
  induction cur with
  | nil => intro _ ha; simp at ha
  | cons c rest ih =>
    intro hnd ha
    have hnd2 : (rest.map Ability.id).Nodup :=
      (List.nodup_cons.mp (by simpa using hnd)).2
    unfold regenRemove
    rcases List.mem_cons.mp ha with rfl | ha2
    · simp only [List.filter_cons]
      rw [if_pos hin]
      unfold abilityLookup
      rw [List.find?_cons_of_pos _ (by simp)]
    · have hcne : c.id ≠ a.id := by
        intro hc
        have hmem : c.id ∈ rest.map Ability.id :=
          List.mem_map.mpr ⟨a, ha2, hc.symm⟩
        exact (List.nodup_cons.mp (by simpa using hnd)).1 hmem
      simp only [List.filter_cons]
      by_cases hpc : (next.any fun e => e.id == c.id) = true
      · rw [if_pos hpc]
        unfold abilityLookup
        rw [List.find?_cons_of_neg _ (by simpa using hcne)]
        exact ih hnd2 ha2
      · rw [if_neg hpc]
        exact ih hnd2 ha2

lemma find?_creature_update (l : List Creature) (cid : CreatureId)
    (f : Creature → Creature) (hf : ∀ x, (f x).id = x.id) :
    ∀ c, l.find? (fun x => x.id == cid) = some c →
      (l.map (fun x => if x.id = cid then f x else x)).find?
        (fun x => x.id == cid) = some (f c) := by
  induction l with
  | nil => intro c h; simp at h
  | cons a rest ih =>
    intro c h
    by_cases ha : a.id = cid
    · rw [List.find?_cons_of_pos _ (by simp [ha])] at h
      cases h
      simp only [List.map_cons, if_pos ha]
      rw [List.find?_cons_of_pos _ (by simp [hf, ha])]
    · rw [List.find?_cons_of_neg _ (by simp [ha])] at h
      simp only [List.map_cons, if_neg ha]
      rw [List.find?_cons_of_neg _ (by simp [ha])]
      exact ih c h

/-- C1: for every actor existing in the battle and every seed, applying
`RegenerateAbilities` passes verification and replaces the actor's ability
collection by `regenAbilities (generate_abilities seed)`: the resulting id
set equals the generated id set, abilities whose id was already present
keep their pre-state value, ids absent from the generated set are removed,
and generated ids that were not present are added with their generated
value. -/
theorem regenerate_abilities_spec (rules : Rules) (fuel : Nat) (b : Battle)
    (cid : CreatureId) (seed : Option Nat) (c : Creature)
    (hc : b.creature cid = some c)
    (hcur : (c.abilities.map Ability.id).Nodup)
    (hnext : ((rules.generateAbilities seed).map Ability.id).Nodup) :
    eventVerify b (.regenerateAbilities (.Creature cid) seed) = .ok () ∧
    ((processEvent rules fuel b
        (.regenerateAbilities (.Creature cid) seed)).2.creature cid =
      some { c with abilities :=
        regenAbilities (rules.generateAbilities seed) c.abilities }) ∧
    (∀ i, hasAbilityId
        (regenAbilities (rules.generateAbilities seed) c.abilities) i ↔
      hasAbilityId (rules.generateAbilities seed) i) ∧
    (∀ a ∈ c.abilities, hasAbilityId (rules.generateAbilities seed) a.id →
      abilityLookup
        (regenAbilities (rules.generateAbilities seed) c.abilities) a.id =
        some a) ∧
    (∀ a ∈ c.abilities, ¬ hasAbilityId (rules.generateAbilities seed) a.id →
      abilityLookup
        (regenAbilities (rules.generateAbilities seed) c.abilities) a.id =
        none) ∧
    (∀ e ∈ rules.generateAbilities seed, ¬ hasAbilityId c.abilities e.id →
      abilityLookup
        (regenAbilities (rules.generateAbilities seed) c.abilities) e.id =
        some e) := by
  have hv : eventVerify b (.regenerateAbilities (.Creature cid) seed) =
      .ok () := by
    show verifyIsActor b (.Creature cid) = .ok ()
    unfold verifyIsActor
    simp [EntityId.isActor, Battle.entity, hc]
  refine ⟨hv, ?_, ?_, ?_, ?_, ?_⟩
  · have hp := processEvent_ok_nofollow rules fuel b
      (.regenerateAbilities (.Creature cid) seed) hv rfl
    rw [hp]
    dsimp only [eventApply, regenerateAbilitiesApply, Battle.updateCreature,
      Battle.creature]
    exact find?_creature_update b.creatures cid
      (fun x => { x with abilities := regenAbilities (rules.generateAbilities seed) x.abilities })
      (fun _ => rfl) c hc
  · intro i
    unfold regenAbilities
    rw [regenAdd_hasId]
    constructor
    · rintro (⟨x, hx, hxi⟩ | h)
      · unfold regenRemove at hx
        obtain ⟨y, hy, hyi⟩ :=
          List.any_eq_true.mp (List.mem_filter.mp hx).2
        exact ⟨y, hy, by simp only [beq_iff_eq] at hyi; rw [hyi, hxi]⟩
      · exact h
    · exact fun h => Or.inr h
  · intro a ha hin
    unfold regenAbilities
    apply regenAdd_lookup_preserved
    refine regenRemove_lookup _ a ?_ c.abilities hcur ha
    obtain ⟨y, hy, hyi⟩ := hin
    exact List.any_eq_true.mpr ⟨y, hy, by simp [hyi]⟩
  · intro a ha hni
    unfold regenAbilities abilityLookup
    rw [List.find?_eq_none]
    intro x hx
    obtain ⟨ex, hsplit, hsub⟩ :=
      regenAdd_split (rules.generateAbilities seed)
        (regenRemove (rules.generateAbilities seed) c.abilities)
    rw [hsplit] at hx
    simp only [beq_iff_eq]
    intro hxa
    apply hni
    rcases List.mem_append.mp hx with hx2 | hx2
    · obtain ⟨y, hy, hyi⟩ :=
        List.any_eq_true.mp (List.mem_filter.mp hx2).2
      exact ⟨y, hy, by simp only [beq_iff_eq] at hyi; rw [hyi, hxa]⟩
    · exact ⟨x, hsub x hx2, hxa⟩
  · intro e he hni
    unfold regenAbilities
    apply regenAdd_lookup_new _ _ _ _ hnext _ he rfl
    intro x hx hxi
    apply hni
    exact ⟨x, (List.mem_filter.mp hx).1, hxi⟩

instance (l : List Ability) (i : AbilityId) : Decidable (hasAbilityId l i) := by
  unfold hasAbilityId
  infer_instance

/-- A rules binding mirroring the `regenerate_abilities` test: the generator
returns abilities `(1, 0)` and `(3, 10)` for any seed. -/
def regenTestRules : Rules where
  generateObjectives := fun _ => 0
  generateAbilities := fun _ => [⟨1, 0⟩, ⟨3, 10⟩]
  alterStatistics := fun _ s => (s, none)
  applyImpact := fun _ _ => []

/-- A battle with one creature that knows abilities `(1, 10)` and `(2, 10)`,
as in the `regenerate_abilities` test. -/
def regenBattle : Battle where
  teams := [⟨1, [1], none, 0⟩]
  creatures := [⟨1, 1, [], [⟨1, 10⟩, ⟨2, 10⟩]⟩]
  relations := []
  rights := []
  round := .Ready
  history := []

/-- Witness for C1: regenerating the abilities of the creature of
`regenBattle` keeps ability 1 with its pre-state value, removes ability 2
and adds ability 3 with its generated value. -/
theorem regenerate_abilities_spec_witness :
    regenBattle.creature 1 = some ⟨1, 1, [], [⟨1, 10⟩, ⟨2, 10⟩]⟩ ∧
    abilityLookup (regenAbilities (regenTestRules.generateAbilities none)
      [⟨1, 10⟩, ⟨2, 10⟩]) 1 = some ⟨1, 10⟩ ∧
    abilityLookup (regenAbilities (regenTestRules.generateAbilities none)
      [⟨1, 10⟩, ⟨2, 10⟩]) 2 = none ∧
    abilityLookup (regenAbilities (regenTestRules.generateAbilities none)
      [⟨1, 10⟩, ⟨2, 10⟩]) 3 = some ⟨3, 10⟩ := by
  have h := regenerate_abilities_spec regenTestRules 0 regenBattle 1 none
    ⟨1, 1, [], [⟨1, 10⟩, ⟨2, 10⟩]⟩ rfl (by decide) (by decide)
  exact ⟨rfl,
    h.2.2.2.1 ⟨1, 10⟩ (by decide) (by decide),
    h.2.2.2.2.1 ⟨2, 10⟩ (by decide) (by decide),
    h.2.2.2.2.2 ⟨3, 10⟩ (by decide) (by decide)⟩

lemma pairMatch_refl (p : RelationshipPair) : pairMatch p p :=
  Or.inl ⟨rfl, rfl⟩

lemma pairMatch_trans {p q r : RelationshipPair} (h1 : pairMatch p q)
    (h2 : pairMatch q r) : pairMatch p r := by
  unfold pairMatch at *
  rcases h1 with ⟨a1, a2⟩ | ⟨a1, a2⟩ <;> rcases h2 with ⟨b1, b2⟩ | ⟨b1, b2⟩
  · exact Or.inl ⟨a1.trans b1, a2.trans b2⟩
  · exact Or.inr ⟨a1.trans b1, a2.trans b2⟩
  · exact Or.inr ⟨a1.trans b2, a2.trans b1⟩
  · exact Or.inl ⟨a1.trans b2, a2.trans b1⟩

lemma find_map_replace (p k : RelationshipPair) (r : Relation)
    (hm : pairMatch p k) :
    ∀ store : List (RelationshipPair × Relation),
      store.any (fun e => decide (pairMatch e.1 p)) = true →
      lookupRel (store.map (fun e => if pairMatch e.1 p then (e.1, r) else e))
        k = some r := by
  intro store
  induction store with
  | nil => intro hs; simp at hs
  | cons e rest ih =>
    intro hs
    by_cases hep : pairMatch e.1 p
    · have hek : pairMatch e.1 k := pairMatch_trans hep hm
      simp only [List.map_cons, if_pos hep]
      unfold lookupRel
      rw [List.find?_cons_of_pos _ (by simpa using hek)]
      rfl
    · have hek : ¬ pairMatch e.1 k := fun hc =>
        hep (pairMatch_trans hc ((pairMatch_symm p k).mp hm))
      simp only [List.map_cons, if_neg hep]
      unfold lookupRel at ih ⊢
      rw [List.find?_cons_of_neg _ (by simpa using hek)]
      apply ih
      rcases List.any_eq_true.mp hs with ⟨x, hx, hxp⟩
      rcases List.mem_cons.mp hx with rfl | hx2
      · exact absurd (by simpa using hxp) hep
      · exact List.any_eq_true.mpr ⟨x, hx2, hxp⟩

lemma find_map_replace_none (p k : RelationshipPair) (r : Relation)
    (hm : ¬ pairMatch p k) :
    ∀ store : List (RelationshipPair × Relation),
      lookupRel (store.map (fun e => if pairMatch e.1 p then (e.1, r) else e))
        k = lookupRel store k := by
  intro store
  induction store with
  | nil => rfl
  | cons e rest ih =>
    by_cases hep : pairMatch e.1 p
    · have hek : ¬ pairMatch e.1 k := fun hc =>
        hm (pairMatch_trans ((pairMatch_symm e.1 p).mp hep) hc)
      simp only [List.map_cons, if_pos hep]
      unfold lookupRel at ih ⊢
      rw [List.find?_cons_of_neg _ (by simpa using hek),
        List.find?_cons_of_neg _ (by simpa using hek)]
      exact ih
    · simp only [List.map_cons, if_neg hep]
      by_cases hek : pairMatch e.1 k
      · unfold lookupRel
        rw [List.find?_cons_of_pos _ (by simpa using hek),
          List.find?_cons_of_pos _ (by simpa using hek)]
      · unfold lookupRel at ih ⊢
        rw [List.find?_cons_of_neg _ (by simpa using hek),
          List.find?_cons_of_neg _ (by simpa using hek)]
        exact ih

lemma lookupRel_upsert (store : List (RelationshipPair × Relation))
    (p : RelationshipPair) (r : Relation) (k : RelationshipPair) :
    lookupRel (upsertRel store p r) k =
      if pairMatch p k then some r else lookupRel store k := by
  unfold upsertRel
  by_cases hs : store.any (fun e => decide (pairMatch e.1 p)) = true
  · rw [if_pos hs]
    by_cases hm : pairMatch p k
    · rw [if_pos hm]
      exact find_map_replace p k r hm store hs
    · rw [if_neg hm]
      exact find_map_replace_none p k r hm store
  · rw [if_neg hs]
    have hnone : ∀ e ∈ store, ¬ pairMatch e.1 p := by
      intro e he hc
      exact hs (List.any_eq_true.mpr ⟨e, he, by simpa using hc⟩)
    by_cases hm : pairMatch p k
    · rw [if_pos hm]
      unfold lookupRel
      rw [List.find?_append]
      have h1 : store.find? (fun e => decide (pairMatch e.1 k)) = none := by
        rw [List.find?_eq_none]
        intro e he
        simp only [decide_eq_true_eq]
        intro hc
        exact hnone e he (pairMatch_trans hc ((pairMatch_symm p k).mp hm))
      rw [h1, List.find?_cons_of_pos _ (by simpa using hm)]
      rfl
    · rw [if_neg hm]
      unfold lookupRel
      rw [List.find?_append]
      have h2 : List.find? (fun e => decide (pairMatch e.1 k)) [(p, r)] =
          none := by
        rw [List.find?_eq_none]
        intro e he
        rw [List.mem_singleton.mp he]
        simpa using hm
      rw [h2]
      cases store.find? (fun e => decide (pairMatch e.1 k)) <;> rfl

lemma lookupRel_updateRelations_nomatch
    (ps : List (RelationshipPair × Relation)) :
    ∀ (store : List (RelationshipPair × Relation)) (k : RelationshipPair),
      (∀ e ∈ ps, ¬ pairMatch e.1 k) →
      lookupRel (updateRelations store ps) k = lookupRel store k := by
  induction ps with
  | nil => intro store k _; rfl
  | cons e rest ih =>
    intro store k h
    unfold updateRelations at ih ⊢
    simp only [List.foldl_cons]
    rw [ih (upsertRel store e.1 e.2) k
      (fun x hx => h x (List.mem_cons_of_mem _ hx))]
    rw [lookupRel_upsert, if_neg (h e (List.mem_cons_self _ _))]

lemma lookupRel_updateRelations_last
    (store l1 : List (RelationshipPair × Relation))
    (p : RelationshipPair) (r : Relation)
    (l2 : List (RelationshipPair × Relation)) (k : RelationshipPair)
    (hp : pairMatch p k) (h2 : ∀ e ∈ l2, ¬ pairMatch e.1 k) :
    lookupRel (updateRelations store (l1 ++ (p, r) :: l2)) k = some r := by
  unfold updateRelations
  rw [List.foldl_append]
  simp only [List.foldl_cons]
  have hstep :
      List.foldl (fun acc e => upsertRel acc e.1 e.2)
        (upsertRel (List.foldl (fun acc e => upsertRel acc e.1 e.2) store l1)
          p r) l2 =
      updateRelations
        (upsertRel (updateRelations store l1) p r) l2 := rfl
  rw [hstep, lookupRel_updateRelations_nomatch l2 _ k h2, lookupRel_upsert,
    if_pos hp]

/-- The explicit-plus-default relation list committed by
`CreateTeam::apply` (`team.rs`), as one term. -/
def createTeamRelList (rules : Rules) (b : Battle) (nid : TeamId)
    (rs : List (TeamId × Relation)) (seed : Option Nat) :
    List (RelationshipPair × Relation) :=
  (rs.map (fun e => ((⟨nid, e.1⟩ : RelationshipPair), e.2))) ++
    (List.map (fun (t : Team) => ((⟨nid, t.id⟩ : RelationshipPair),
        Relation.Enemy))
      (List.filter
        (fun (t : Team) => t.id != nid &&
          !(rs.any (fun e => e.1 == t.id)))
        (b.teams ++ [(⟨nid, [], none,
          rules.generateObjectives seed⟩ : Team)])))

lemma createTeamApply_relations_eq (rules : Rules) (b : Battle)
    (nid : TeamId) (rs : List (TeamId × Relation)) (seed : Option Nat) :
    (createTeamApply rules b nid (some rs) seed).relations =
      updateRelations b.relations
        (createTeamRelList rules b nid rs seed) := rfl

lemma createTeamApply_named (rules : Rules) (b : Battle) (nid : TeamId)
    (rs : List (TeamId × Relation)) (seed : Option Nat)
    (hnd : (rs.map Prod.fst).Nodup)
    (hself : ∀ p ∈ rs, p.1 ≠ nid)
    (pr : TeamId × Relation) (hp : pr ∈ rs) :
    lookupRel (createTeamApply rules b nid (some rs) seed).relations
      ⟨nid, pr.1⟩ = some pr.2 := by
  rw [createTeamApply_relations_eq]
  unfold createTeamRelList
  obtain ⟨s, t, hrs⟩ := List.append_of_mem hp
  subst hrs
  rw [List.map_append, List.map_cons, List.append_assoc, List.cons_append]
  apply lookupRel_updateRelations_last _ _ _ _ _ _ (pairMatch_refl _)
  intro e he
  rcases List.mem_append.mp he with he2 | he2
  · obtain ⟨q, hq, rfl⟩ := List.mem_map.mp he2
    unfold pairMatch
    dsimp only
    rintro (⟨_, h2⟩ | ⟨h1, _⟩)
    · have hnin : pr.1 ∉ t.map Prod.fst := by
        have := hnd
        rw [List.map_append, List.map_cons] at this
        have h3 := (List.nodup_append.mp this).2.1
        exact (List.nodup_cons.mp h3).1
      exact hnin (List.mem_map.mpr ⟨q, hq, h2⟩)
    · exact hself pr (by
        exact List.mem_append.mpr (Or.inr (List.mem_cons_self _ _))) h1.symm
  · obtain ⟨tm, htm, rfl⟩ := List.mem_map.mp he2
    have htm2 := (List.mem_filter.mp htm).2
    rw [Bool.and_eq_true] at htm2
    have hany : (s ++ pr :: t).any (fun e => e.1 == tm.id) = false := by
      have := htm2.2
      rwa [Bool.not_eq_true'] at this
    unfold pairMatch
    dsimp only
    rintro (⟨_, h2⟩ | ⟨h1, _⟩)
    · have htrue : (s ++ pr :: t).any (fun e => e.1 == tm.id) = true :=
        List.any_eq_true.mpr ⟨pr,
          List.mem_append.mpr (Or.inr (List.mem_cons_self _ _)),
          by simp [h2]⟩
      exact Bool.false_ne_true (hany ▸ htrue)
    · exact hself pr (by
        exact List.mem_append.mpr (Or.inr (List.mem_cons_self _ _))) h1.symm

lemma createTeamApply_default (rules : Rules) (b : Battle) (nid : TeamId)
    (rs : List (TeamId × Relation)) (seed : Option Nat)
    (hteams : (b.teams.map Team.id).Nodup)
    (hnot : ∀ t ∈ b.teams, t.id ≠ nid)
    (tm : Team) (htm : tm ∈ b.teams) (hnm : tm.id ∉ rs.map Prod.fst) :
    lookupRel (createTeamApply rules b nid (some rs) seed).relations
      ⟨nid, tm.id⟩ = some Relation.Enemy := by
  rw [createTeamApply_relations_eq]
  unfold createTeamRelList
  have hanyf : (rs.any (fun e => e.1 == tm.id)) = false := by
    rw [Bool.eq_false_iff]
    intro hc
    obtain ⟨x, hx, hxe⟩ := List.any_eq_true.mp hc
    simp only [beq_iff_eq] at hxe
    exact hnm (List.mem_map.mpr ⟨x, hx, hxe⟩)
  have hflt : tm ∈ List.filter
      (fun (t : Team) => t.id != nid && !(rs.any (fun e => e.1 == t.id)))
      (b.teams ++ [(⟨nid, [], none,
        rules.generateObjectives seed⟩ : Team)]) := by
    rw [List.mem_filter]
    refine ⟨List.mem_append.mpr (Or.inl htm), ?_⟩
    rw [Bool.and_eq_true]
    constructor
    · simpa using hnot tm htm
    · rw [Bool.not_eq_true', hanyf]
  have hfltnd : ((List.filter
      (fun (t : Team) => t.id != nid && !(rs.any (fun e => e.1 == t.id)))
      (b.teams ++ [(⟨nid, [], none,
        rules.generateObjectives seed⟩ : Team)])).map Team.id).Nodup := by
    apply List.Nodup.sublist (List.Sublist.map Team.id (List.filter_sublist _))
    rw [List.map_append]
    rw [List.nodup_append]
    refine ⟨hteams, by simp, ?_⟩
    intro x hx
    simp only [List.map_cons, List.map_nil, List.mem_singleton]
    intro hc
    obtain ⟨t0, ht0, ht0i⟩ := List.mem_map.mp hx
    exact hnot t0 ht0 (by rw [ht0i]; exact hc)
  obtain ⟨s2, t2, hf⟩ := List.append_of_mem hflt
  rw [hf, List.map_append, List.map_cons, ← List.append_assoc]
  apply lookupRel_updateRelations_last _ _ _ _ _ _ (pairMatch_refl _)
  intro e he
  obtain ⟨tm2, htm2, rfl⟩ := List.mem_map.mp he
  have hnin : tm.id ∉ t2.map Team.id := by
    rw [hf, List.map_append, List.map_cons] at hfltnd
    have h3 := (List.nodup_append.mp hfltnd).2.1
    exact (List.nodup_cons.mp h3).1
  unfold pairMatch
  dsimp only
  rintro (⟨_, h2⟩ | ⟨h1, _⟩)
  · exact hnin (List.mem_map.mpr ⟨tm2, htm2, h2⟩)
  · exact hnot tm htm h1.symm

/-- C2: after a verified `CreateTeam(id, relations, seed)`, the relation
between the new team and each pre-existing team named in the explicit
relations list is the listed relation, and the relation between the new
team and every pre-existing team not named is `Enemy`; with an absent
relations list every pre-existing team becomes an `Enemy` of the new team. -/
theorem create_team_relations_spec (rules : Rules) (fuel : Nat) (b : Battle)
    (nid : TeamId) (rs : List (TeamId × Relation)) (seed : Option Nat)
    (hteams : (b.teams.map Team.id).Nodup)
    (hnd : (rs.map Prod.fst).Nodup)
    (hver : createTeamVerify b nid (some rs) = .ok ()) :
    (∀ p ∈ rs,
      (processEvent rules fuel b
        (.createTeam nid (some rs) seed)).2.relation nid p.1 = p.2) ∧
    (∀ t ∈ b.teams, t.id ∉ rs.map Prod.fst →
      (processEvent rules fuel b
        (.createTeam nid (some rs) seed)).2.relation nid t.id =
        .Enemy) ∧
    (∀ t ∈ b.teams,
      (processEvent rules fuel b
        (.createTeam nid none seed)).2.relation nid t.id = .Enemy) := by
  have hdup : (b.team nid).isSome = false := by
    cases h : (b.team nid).isSome with
    | false => rfl
    | true =>
      unfold createTeamVerify at hver
      rw [if_pos h] at hver
      exact nomatch hver
  have hclean : ∀ p ∈ rs, p.1 ≠ nid ∧ p.2 ≠ Relation.Kin ∧
      (b.team p.1).isSome = true := by
    apply (verifyRelList_ok_iff b nid rs).mp
    unfold createTeamVerify at hver
    rw [if_neg (by rw [hdup]; exact fun hc => nomatch hc)] at hver
    exact hver
  have hself : ∀ p ∈ rs, p.1 ≠ nid := fun p hp => (hclean p hp).1
  have hnot : ∀ t ∈ b.teams, t.id ≠ nid := by
    intro t ht hc
    have hnone : b.team nid = none := by
      cases hbt : b.team nid with
      | none => rfl
      | some x => rw [hbt] at hdup; exact nomatch hdup
    rw [Battle.team, List.find?_eq_none] at hnone
    exact hnone t ht (by simp [hc])
  have hv2 : eventVerify b (.createTeam nid (some rs) seed) = .ok () := hver
  have hvn : eventVerify b (.createTeam nid none seed) = .ok () := by
    show createTeamVerify b nid none = .ok ()
    unfold createTeamVerify
    rw [if_neg (by rw [hdup]; exact fun hc => nomatch hc)]
  refine ⟨?_, ?_, ?_⟩
  · intro pr hp
    rw [processEvent_ok_nofollow rules fuel b _ hv2 rfl]
    dsimp only [eventApply]
    unfold Battle.relation
    dsimp only
    rw [if_neg (fun hc => hself pr hp hc.symm),
      createTeamApply_named rules b nid rs seed hnd hself pr hp]
    rfl
  · intro tm htm hnm
    rw [processEvent_ok_nofollow rules fuel b _ hv2 rfl]
    dsimp only [eventApply]
    unfold Battle.relation
    dsimp only
    rw [if_neg (fun hc => hnot tm htm hc.symm),
      createTeamApply_default rules b nid rs seed hteams hnot tm htm hnm]
    rfl
  · intro tm htm
    rw [processEvent_ok_nofollow rules fuel b _ hvn rfl]
    dsimp only [eventApply]
    unfold Battle.relation
    dsimp only
    have happ : createTeamApply rules b nid none seed =
        createTeamApply rules b nid (some []) seed := rfl
    rw [if_neg (fun hc => hnot tm htm hc.symm), happ,
      createTeamApply_default rules b nid [] seed hteams hnot tm htm
        (by simp)]
    rfl

/-- A battle with two empty teams, ids 1 and 2. -/
def twoTeamBattle : Battle where
  teams := [⟨1, [], none, 0⟩, ⟨2, [], none, 0⟩]
  creatures := []
  relations := []
  rights := []
  round := .Ready
  history := []

/-- Witness for C2: creating team 3 on `twoTeamBattle` with the explicit
relation `(1, Ally)` makes team 1 an ally and defaults team 2 to enemy;
creating it without a relations list defaults team 1 to enemy. -/
theorem create_team_relations_spec_witness :
    (processEvent defaultRules 0 twoTeamBattle
      (.createTeam 3 (some [(1, .Ally)]) none)).2.relation 3 1 = .Ally ∧
    (processEvent defaultRules 0 twoTeamBattle
      (.createTeam 3 (some [(1, .Ally)]) none)).2.relation 3 2 = .Enemy ∧
    (processEvent defaultRules 0 twoTeamBattle
      (.createTeam 3 none none)).2.relation 3 1 = .Enemy := by
  have h := create_team_relations_spec defaultRules 0 twoTeamBattle 3
    [(1, .Ally)] none (by decide) (by decide) rfl
  exact ⟨h.1 (1, .Ally) (by decide),
    h.2.1 ⟨2, [], none, 0⟩ (by decide) (by decide),
    h.2.2 ⟨1, [], none, 0⟩ (by decide)⟩

lemma drainQueue_cons_ok (rules : Rules) (f : Nat) (b : Battle) (e : Event)
    (rest : List Event) (hv : eventVerify b e = .ok ()) :
    drainQueue rules (f + 1) b (e :: rest) =
      drainQueue rules f
        { (eventApply rules b e).1 with
          history := (eventApply rules b e).1.history ++ [e] }
        (rest ++ (eventApply rules b e).2) := by
  have h : drainQueue rules (f + 1) b (e :: rest) =
      (match eventVerify b e with
        | .error _ => drainQueue rules f b rest
        | .ok () =>
          drainQueue rules f
            { (eventApply rules b e).1 with
              history := (eventApply rules b e).1.history ++ [e] }
            (rest ++ (eventApply rules b e).2)) := rfl
  rw [h, hv]

lemma processEvent_snd_eq_drain (rules : Rules) (fuel : Nat) (b : Battle)
    (e : Event) (hv : eventVerify b e = .ok ()) :
    (processEvent rules fuel b e).2 = drainQueue rules (fuel + 1) b [e] := by
  unfold processEvent
  rw [hv, drainQueue_cons_ok rules fuel b e [] hv]
  dsimp only
  rw [List.nil_append]

lemma drainQueue_endRound (rules : Rules) (f : Nat) (b : Battle)
    (x : EntityId) (hr : b.round = .Started x) :
    drainQueue rules (f + 1) b [.endRound] =
      { b with round := .Ready, history := b.history ++ [.endRound] } := by
  have hv : eventVerify b .endRound = .ok () := by
    show endRoundVerify b = .ok ()
    unfold endRoundVerify
    rw [hr]
  rw [drainQueue_cons_ok rules f b .endRound [] hv]
  dsimp only [eventApply, endRoundApply]
  rw [List.nil_append]
  rw [drainQueue_nil]

/-- The entity-store part of a creature removal: the creature is dropped
from the store and erased from the member list of the given team. -/
def removalBattle (b : Battle) (cid : CreatureId) (tid : TeamId) : Battle :=
  { b with
      creatures := b.creatures.filter (fun x => x.id != cid),
      teams := b.teams.map (fun t =>
        if t.id = tid then { t with creatures := t.creatures.erase cid }
        else t) }

lemma removeCreatureApply_eq (rules : Rules) (b : Battle) (cid : CreatureId)
    (c : Creature) (hc : b.creature cid = some c)
    (hr : b.round = .Started (.Creature cid)) :
    eventApply rules b (.removeCreature cid) =
      (removalBattle b cid c.team_id, [.endRound]) := by
  show removeCreatureApply b cid = _
  unfold removeCreatureApply
  rw [hc]
  dsimp only
  rw [if_pos hr]
  rfl

lemma drainQueue_removal (rules : Rules) (f : Nat) (b : Battle)
    (cid : CreatureId) (c : Creature) (hc : b.creature cid = some c)
    (hr : b.round = .Started (.Creature cid)) :
    drainQueue rules (f + 2) b [.removeCreature cid] =
      { removalBattle b cid c.team_id with
          round := .Ready,
          history := b.history ++ [.removeCreature cid, .endRound] } := by
  have hv : eventVerify b (.removeCreature cid) = .ok () := by
    show removeCreatureVerify b cid = .ok ()
    unfold removeCreatureVerify
    rw [hc]
    rfl
  rw [show f + 2 = (f + 1) + 1 from rfl]
  rw [drainQueue_cons_ok rules (f + 1) b (.removeCreature cid) [] hv]
  rw [removeCreatureApply_eq rules b cid c hc hr]
  dsimp only
  rw [List.nil_append]
  rw [drainQueue_endRound rules f _ (.Creature cid) (by exact hr)]
  rw [List.append_assoc]
  rfl

lemma removalBattle_conclusions (b : Battle) (cid : CreatureId)
    (tid : TeamId)
    (hmem : ∀ t ∈ b.teams, cid ∈ t.creatures → t.id = tid)
    (hnodup : ∀ t ∈ b.teams, t.creatures.Nodup) :
    (removalBattle b cid tid).creature cid = none ∧
    ∀ t ∈ (removalBattle b cid tid).teams, cid ∉ t.creatures := by
  constructor
  · show (b.creatures.filter (fun x => x.id != cid)).find?
      (fun x => x.id == cid) = none
    rw [List.find?_eq_none]
    intro x hx
    simpa using (List.mem_filter.mp hx).2
  · intro t ht
    obtain ⟨t0, ht0, rfl⟩ := List.mem_map.mp ht
    by_cases h0 : t0.id = tid
    · rw [if_pos h0]
      exact (hnodup t0 ht0).not_mem_erase
    · rw [if_neg h0]
      intro hin
      exact h0 (hmem t0 ht0 hin)

/-- C7: when the round state is `Started` on a creature, both removing that
creature directly and firing an `AlterStatistics` whose `alter` hook returns
`Transmutation::REMOVAL` leave a state in which the creature no longer
exists in the entity store nor in any team's member list, and the round
state is `Ready`. -/
theorem round_coupling_on_removal (rules : Rules) (f : Nat) (b : Battle)
    (cid : CreatureId) (c : Creature) (alt : Nat) (st2 : List Statistic)
    (hc : b.creature cid = some c)
    (hr : b.round = .Started (.Creature cid))
    (hmem : ∀ t ∈ b.teams, cid ∈ t.creatures → t.id = c.team_id)
    (hnodup : ∀ t ∈ b.teams, t.creatures.Nodup) :
    ((processEvent rules (f + 2) b (.removeCreature cid)).2.creature cid =
        none ∧
      (∀ t ∈ (processEvent rules (f + 2) b (.removeCreature cid)).2.teams,
        cid ∉ t.creatures) ∧
      (processEvent rules (f + 2) b (.removeCreature cid)).2.round =
        .Ready) ∧
    (rules.alterStatistics alt c.statistics = (st2, some .REMOVAL) →
      (processEvent rules (f + 2) b
          (.alterStatistics (.Creature cid) alt)).2.creature cid = none ∧
      (∀ t ∈ (processEvent rules (f + 2) b
          (.alterStatistics (.Creature cid) alt)).2.teams,
        cid ∉ t.creatures) ∧
      (processEvent rules (f + 2) b
          (.alterStatistics (.Creature cid) alt)).2.round = .Ready) := by
  have hv : eventVerify b (.removeCreature cid) = .ok () := by
    show removeCreatureVerify b cid = .ok ()
    unfold removeCreatureVerify
    rw [hc]
    rfl
  constructor
  · rw [processEvent_snd_eq_drain rules (f + 2) b _ hv]
    rw [show f + 2 + 1 = (f + 1) + 2 from rfl]
    rw [drainQueue_removal rules (f + 1) b cid c hc hr]
    obtain ⟨h1, h2⟩ := removalBattle_conclusions b cid c.team_id hmem hnodup
    exact ⟨h1, h2, rfl⟩
  · intro halter
    have hv2 : eventVerify b (.alterStatistics (.Creature cid) alt) =
        .ok () := by
      show alterStatisticsVerify b (.Creature cid) = .ok ()
      unfold alterStatisticsVerify
      simp [Battle.entity, hc]
    have happly : eventApply rules b (.alterStatistics (.Creature cid) alt) =
        (b.updateCreature cid (fun x => { x with statistics := st2 }),
          [.removeCreature cid]) := by
      show alterStatisticsApply rules b (.Creature cid) alt = _
      unfold alterStatisticsApply
      dsimp only
      rw [hc]
      dsimp only
      rw [halter]
    rw [processEvent_snd_eq_drain rules (f + 2) b _ hv2]
    rw [show f + 2 + 1 = (f + 2) + 1 from rfl]
    rw [drainQueue_cons_ok rules (f + 2) b _ [] hv2]
    rw [happly]
    dsimp only
    rw [List.nil_append]
    have hcX : ({ b.updateCreature cid (fun x => { x with statistics := st2 }) with
        history := (b.updateCreature cid (fun x => { x with statistics := st2 })).history ++ [.alterStatistics (.Creature cid) alt] } : Battle).creature cid =
        some { c with statistics := st2 } := by
      show (b.creatures.map (fun x => if x.id = cid then { x with statistics := st2 } else x)).find? (fun x => x.id == cid) = _
      exact find?_creature_update b.creatures cid
        (fun x => { x with statistics := st2 }) (fun _ => rfl) c hc
    rw [drainQueue_removal rules f _ cid { c with statistics := st2 } hcX
      (by exact hr)]
    refine ⟨?_, ?_, rfl⟩
    · exact (removalBattle_conclusions _ cid c.team_id
        (by exact hmem) (by exact hnodup)).1
    · exact (removalBattle_conclusions _ cid c.team_id
        (by exact hmem) (by exact hnodup)).2

/-- A battle with one creature in one team and a round started on that
creature. -/
def roundBattle : Battle where
  teams := [⟨1, [1], none, 0⟩]
  creatures := [⟨1, 1, [], []⟩]
  relations := []
  rights := []
  round := .Started (.Creature 1)
  history := []

/-- Witness for C7: on `roundBattle`, both `RemoveCreature 1` and an
`AlterStatistics` under `removalRules` (whose `alter` returns `REMOVAL`)
delete creature 1 and leave the round state `Ready`. -/
theorem round_coupling_on_removal_witness :
    (processEvent removalRules 2 roundBattle
      (.removeCreature 1)).2.creature 1 = none ∧
    (processEvent removalRules 2 roundBattle
      (.removeCreature 1)).2.round = .Ready ∧
    removalRules.alterStatistics 0 [] = ([], some .REMOVAL) ∧
    (processEvent removalRules 2 roundBattle
      (.alterStatistics (.Creature 1) 0)).2.creature 1 = none ∧
    (processEvent removalRules 2 roundBattle
      (.alterStatistics (.Creature 1) 0)).2.round = .Ready := by
  have h := round_coupling_on_removal removalRules 0 roundBattle 1
    ⟨1, 1, [], []⟩ 0 [] rfl rfl (by decide) (by decide)
  exact ⟨h.1.1, h.1.2.2, rfl, (h.2 rfl).1, (h.2 rfl).2.2⟩

end Weasel
